import Mathlib

/-!
Shallow embedding of `ngsg_reference.py` (NGS genotyping reference converter).

The program converts a two-column (name, sequence) table into FASTA text and
validates the text with four checks (non-ASCII, valid sequence characters,
gaps, blank lines).  Python strings are modelled as Lean `String`
(lists of unicode characters); Python `str.splitlines`, `str.strip` and
`str.lower` are modelled explicitly below.
-/

set_option linter.unusedVariables false

/-- An entry of the issues list: the Python dict
`{Issue Number, Line Number, Issue}` built by the four checks. -/
structure Issue where
  issueNumber : Nat
  lineNumber : Nat
  issue : String
  deriving DecidableEq, Repr

/-- Python `str.isspace` (the character set that `str.strip()` removes):
ASCII whitespace 0x09-0x0D and 0x1C-0x1F and space, NEL, NBSP, Ogham space,
the Zs general-category spaces, and the line/paragraph separators. -/
def pyIsSpace (c : Char) : Bool :=
  let n := c.toNat
  (9 ≤ n && n ≤ 13) || (28 ≤ n && n ≤ 31) || n == 32 || n == 0x85 || n == 0xA0 ||
    n == 0x1680 || (0x2000 ≤ n && n ≤ 0x200A) || n == 0x2028 || n == 0x2029 ||
    n == 0x202F || n == 0x205F || n == 0x3000

/-- `str.strip()` on a character list: drop leading and trailing whitespace. -/
def pyStripList (l : List Char) : List Char :=
  ((l.dropWhile pyIsSpace).reverse.dropWhile pyIsSpace).reverse

/-- Python `s.strip()`. -/
def pyStrip (s : String) : String :=
  String.mk (pyStripList s.data)

/-- Python `s.lower()`.  Character-wise lowercasing; `Char.toLower` handles the
ASCII letters, which are the only characters whose lowercase form can ever
equal a character of the ASCII literal `"none"` that the program compares
against. -/
def pyLower (s : String) : String :=
  String.mk (s.data.map Char.toLower)

/-- The line-boundary characters of Python `str.splitlines`:
LF, VT, FF, CR, FS, GS, RS, NEL, LINE SEPARATOR, PARAGRAPH SEPARATOR
(`\r\n` is treated as a single boundary by `pySplitlinesGo`). -/
def pyIsLineBreak (c : Char) : Bool :=
  let n := c.toNat
  n == 10 || n == 11 || n == 12 || n == 13 || n == 28 || n == 29 || n == 30 ||
    n == 0x85 || n == 0x2028 || n == 0x2029

/-- Worker for `str.splitlines`: `acc` holds the current (reversed) line. -/
def pySplitlinesGo : List Char → List Char → List String
  | [], acc => if acc.isEmpty then [] else [String.mk acc.reverse]
  | '\r' :: '\n' :: rest, acc => String.mk acc.reverse :: pySplitlinesGo rest []
  | c :: rest, acc =>
    if pyIsLineBreak c then String.mk acc.reverse :: pySplitlinesGo rest []
    else pySplitlinesGo rest (c :: acc)

/-- Python `s.splitlines()`:  `"" ↦ []`, no empty trailing line for a final
line break, `\r\n` counts as one break. -/
def pySplitlines (s : String) : List String :=
  pySplitlinesGo s.data []

/-- Python `line.startswith(">")`. -/
def startsHeader (l : String) : Bool :=
  match l.data with
  | [] => false
  | c :: _ => c == '>'

/-- The message built by `check_non_ascii` (`idx` is the 0-based character
index inside the line, reported 1-based). -/
def nonAsciiMsg (c : Char) (idx : Nat) : String :=
  s!"Invalid character in sequence header: '{c}' at position {idx + 1}"

/-- Inner loop of `check_non_ascii`: `for idx, char in enumerate(line)`.
Appends an issue, with the running count as `Issue Number` and the 0-based
line index `ln` as `Line Number`, for every character above 127. -/
def naLine (ln : Nat) : Nat → List Char → List Issue → List Issue
  | _, [], issues => issues
  | idx, c :: rest, issues =>
    if 127 < c.toNat then
      naLine ln (idx + 1) rest (issues ++ [⟨issues.length + 1, ln, nonAsciiMsg c idx⟩])
    else
      naLine ln (idx + 1) rest issues

/-- Outer loop of `check_non_ascii`: `for line_num, line in enumerate(lines)`.
(The stray `line_num += 1` at the end of the Python loop body is a no-op:
`enumerate` reassigns `line_num` on the next iteration.) -/
def naLines : Nat → List String → List Issue → List Issue
  | _, [], issues => issues
  | ln, l :: rest, issues => naLines (ln + 1) rest (naLine ln 0 l.data issues)

/-- `check_non_ascii(file_content, issues)` returning the extended list. -/
def check_non_ascii (content : String) (issues : List Issue) : List Issue :=
  naLines 0 (pySplitlines content) issues

/-- Python `char in "AaTtCcGgNn()"`. -/
def validChar (c : Char) : Bool :=
  "AaTtCcGgNn()".data.contains c

/-- `line.replace(" ", "").replace("\t", "")`: replacing every occurrence of a
single character by the empty string removes exactly those characters. -/
def despace (l : List Char) : List Char :=
  l.filter (fun c => !(c == ' ') && !(c == '\t'))

/-- The message built by `check_valid_sequence` (`idx` is the 0-based index
inside the stripped sequence, reported 1-based). -/
def invalidSeqMsg (c : Char) (idx : Nat) : String :=
  s!"Invalid character in sequence: '{c}' at position {idx + 1}"

/-- Inner loop of `check_valid_sequence` over the cleaned sequence; `ln` is
the 0-based line index, stored as `ln + 1`. -/
def vsLine (ln : Nat) : Nat → List Char → List Issue → List Issue
  | _, [], issues => issues
  | idx, c :: rest, issues =>
    if validChar c then
      vsLine ln (idx + 1) rest issues
    else
      vsLine ln (idx + 1) rest (issues ++ [⟨issues.length + 1, ln + 1, invalidSeqMsg c idx⟩])

/-- Outer loop of `check_valid_sequence`: headers and blank lines are skipped,
other lines are stripped, space/tab-cleaned, and scanned. -/
def vsLines : Nat → List String → List Issue → List Issue
  | _, [], issues => issues
  | ln, l :: rest, issues =>
    if startsHeader l ∨ pyStrip l = "" then vsLines (ln + 1) rest issues
    else vsLines (ln + 1) rest (vsLine ln 0 (despace (pyStripList l.data)) issues)

/-- `check_valid_sequence(file_content, issues)`. -/
def check_valid_sequence (content : String) (issues : List Issue) : List Issue :=
  vsLines 0 (pySplitlines content) issues

/-- The message built by `check_gaps`. -/
def gapMsg : String := "Gap (space or tab) in sequence"

/-- Loop of `check_gaps`: one issue (with 1-based line number) per non-header
non-blank line containing a space or a tab. -/
def gapLines : Nat → List String → List Issue → List Issue
  | _, [], issues => issues
  | ln, l :: rest, issues =>
    if startsHeader l ∨ pyStrip l = "" then gapLines (ln + 1) rest issues
    else if ' ' ∈ l.data ∨ '\t' ∈ l.data then
      gapLines (ln + 1) rest (issues ++ [⟨issues.length + 1, ln + 1, gapMsg⟩])
    else gapLines (ln + 1) rest issues

/-- `check_gaps(file_content, issues)`. -/
def check_gaps (content : String) (issues : List Issue) : List Issue :=
  gapLines 0 (pySplitlines content) issues

/-- The message built by `check_blank_lines`. -/
def blankMsg : String := "Blank line found"

/-- Loop of `check_blank_lines`: one issue (1-based line number) per line that
strips to nothing. -/
def blLines : Nat → List String → List Issue → List Issue
  | _, [], issues => issues
  | ln, l :: rest, issues =>
    if pyStrip l = "" then
      blLines (ln + 1) rest (issues ++ [⟨issues.length + 1, ln + 1, blankMsg⟩])
    else blLines (ln + 1) rest issues

/-- `check_blank_lines(file_content, issues)`. -/
def check_blank_lines (content : String) (issues : List Issue) : List Issue :=
  blLines 0 (pySplitlines content) issues

/-- `check_fasta_file(file_content)`: the four checks mutate one shared list
in order; functionally, each receives the previous result. -/
def check_fasta_file (content : String) : List Issue :=
  check_blank_lines content
    (check_gaps content
      (check_valid_sequence content
        (check_non_ascii content [])))

/-- Cell normalisation performed in `main` before the even/odd dispatch:
`txt = col.strip()` then `if txt.lower() == 'none': txt = ''`. -/
def normCell (s : String) : String :=
  let txt := pyStrip s
  if pyLower txt = "none" then "" else txt

/-- Inner serializer loop of `main`: `for j, col in enumerate(row)` with the
mutable `header_blank` flag `hb` and the growing `fasta_contents` list `acc`.
Even columns set the flag (and emit a header line when non-blank); odd columns
emit the sequence line only when the flag is unset. -/
def serCells : Nat → Bool → List String → List String → Bool × List String
  | _, hb, [], acc => (hb, acc)
  | j, hb, col :: rest, acc =>
    let txt := normCell col
    if j % 2 = 0 then
      if txt = "" then serCells (j + 1) true rest acc
      else serCells (j + 1) false rest (acc ++ [">" ++ txt])
    else
      if hb then serCells (j + 1) hb rest acc
      else serCells (j + 1) hb rest (acc ++ [txt])

/-- Outer serializer loop of `main`: `for row in table`, threading
`header_blank` and `fasta_contents` across rows as the Python code does. -/
def serRows : Bool → List (List String) → List String → Bool × List String
  | hb, [], acc => (hb, acc)
  | hb, row :: rows, acc =>
    let r := serCells 0 hb row acc
    serRows r.1 rows r.2

/-- The `fasta_contents` list produced by `main` for a given table
(`header_blank` starts `False`, `fasta_contents` starts empty). -/
def fasta_contents (table : List (List String)) : List String :=
  (serRows false table []).2

/-- `fasta_str = '\n'.join(fasta_contents)`. -/
def fasta_str (table : List (List String)) : String :=
  String.intercalate "\n" (fasta_contents table)

/-- The locator data written by the cell screener in `main` for one illegal
character: `row:{i+1} column:{j+1} character:{k+1}, symbol:{ord(c)} {c} in {col}`
(indices stored 1-based, as displayed). -/
structure Locator where
  row : Nat
  column : Nat
  charPos : Nat
  symbol : Nat
  ch : Char
  cell : String
  deriving DecidableEq, Repr

/-- Innermost screener loop of `main`: `for k, c in enumerate(col)`, flagging
and recording every character whose code point exceeds 255. -/
def scanChars (i j : Nat) (cell : String) : Nat → List Char → Bool × List Locator → Bool × List Locator
  | _, [], st => st
  | k, c :: rest, st =>
    if 255 < c.toNat then
      scanChars i j cell (k + 1) rest (true, st.2 ++ [⟨i + 1, j + 1, k + 1, c.toNat, c, cell⟩])
    else scanChars i j cell (k + 1) rest st

/-- Screener loop over one row: `for j, col in enumerate(row)`. -/
def scanRow (i : Nat) : Nat → List String → Bool × List Locator → Bool × List Locator
  | _, [], st => st
  | j, cell :: rest, st => scanRow i (j + 1) rest (scanChars i j cell 0 cell.data st)

/-- Screener loop over the table: `for i, row in enumerate(table)`. -/
def scanTable : Nat → List (List String) → Bool × List Locator → Bool × List Locator
  | _, [], st => st
  | i, row :: rows, st => scanTable (i + 1) rows (scanRow i 0 row st)

/-- The cell screener of `main`: `illegal_chars_seen` plus all locators. -/
def screenTable (table : List (List String)) : Bool × List Locator :=
  scanTable 0 table (false, [])

/-- The gate in `main`: serialization runs only when the screener saw no
illegal characters (`format_as_fasta`) and the table is non-empty
(`if format_as_fasta and table:`); `none` means the serializer never ran. -/
def pipelineFasta (table : List (List String)) : Option (List String) :=
  if (screenTable table).1 then none
  else if table.isEmpty then none
  else some (fasta_contents table)

/-- The save gate of `main`: `okay_to_save` is set only when serialization ran,
produced a non-empty `fasta_contents`, and `check_fasta_file` found no issues. -/
def okay_to_save (table : List (List String)) : Bool :=
  match pipelineFasta table with
  | none => false
  | some fc =>
    if fc = [] then false
    else (check_fasta_file (String.intercalate "\n" fc)).isEmpty

/-! ### Declarative descriptions used to state the claims

The `raw…` functions list, in source order, the offending occurrences each
check reacts to, each tagged with its **0-based** line index; `mkIssues`
numbers a list of (reported line number, message) pairs with consecutive
ordinals.  They are the specification side against which the loop-shaped
check functions above are proved equal. -/

/-- All (0-based line, 0-based column, char) occurrences of characters above
127 inside one line, scanning from column `idx`. -/
def rawNALine (ln : Nat) : Nat → List Char → List (Nat × Nat × Char)
  | _, [] => []
  | idx, c :: rest =>
    (if 127 < c.toNat then [(ln, idx, c)] else []) ++ rawNALine ln (idx + 1) rest

/-- All non-ASCII occurrences over the lines, first line numbered `ln`. -/
def rawNA : Nat → List String → List (Nat × Nat × Char)
  | _, [] => []
  | ln, l :: rest => rawNALine ln 0 l.data ++ rawNA (ln + 1) rest

/-- All (0-based line, 0-based index in the cleaned sequence, char)
occurrences of invalid sequence characters inside one cleaned line. -/
def rawVSLine (ln : Nat) : Nat → List Char → List (Nat × Nat × Char)
  | _, [] => []
  | idx, c :: rest =>
    (if validChar c then [] else [(ln, idx, c)]) ++ rawVSLine ln (idx + 1) rest

/-- All invalid-sequence-character occurrences over the lines (headers and
blank lines skipped, lines stripped then space/tab-cleaned). -/
def rawVS : Nat → List String → List (Nat × Nat × Char)
  | _, [] => []
  | ln, l :: rest =>
    if startsHeader l ∨ pyStrip l = "" then rawVS (ln + 1) rest
    else rawVSLine ln 0 (despace (pyStripList l.data)) ++ rawVS (ln + 1) rest

/-- 0-based indices of the non-header non-blank lines containing a space or
tab. -/
def rawGap : Nat → List String → List Nat
  | _, [] => []
  | ln, l :: rest =>
    if startsHeader l ∨ pyStrip l = "" then rawGap (ln + 1) rest
    else if ' ' ∈ l.data ∨ '\t' ∈ l.data then ln :: rawGap (ln + 1) rest
    else rawGap (ln + 1) rest

/-- 0-based indices of the blank (whitespace-only) lines. -/
def rawBlank : Nat → List String → List Nat
  | _, [] => []
  | ln, l :: rest =>
    if pyStrip l = "" then ln :: rawBlank (ln + 1) rest
    else rawBlank (ln + 1) rest

/-- Turn (reported line number, message) pairs into issues with consecutive
ordinals `base + 1, base + 2, …`. -/
def mkIssues : Nat → List (Nat × String) → List Issue
  | _, [] => []
  | base, (ln, msg) :: rest => ⟨base + 1, ln, msg⟩ :: mkIssues (base + 1) rest

/-- The (line number, message) pairs the non-ASCII check reports: the
**0-based** line index of the occurrence is reported as is. -/
def naPairs (content : String) : List (Nat × String) :=
  (rawNA 0 (pySplitlines content)).map fun p => (p.1, nonAsciiMsg p.2.2 p.2.1)

/-- The pairs the valid-sequence-character check reports: 0-based line index
plus one. -/
def vsPairs (content : String) : List (Nat × String) :=
  (rawVS 0 (pySplitlines content)).map fun p => (p.1 + 1, invalidSeqMsg p.2.2 p.2.1)

/-- The pairs the gap check reports: 0-based line index plus one. -/
def gapPairs (content : String) : List (Nat × String) :=
  (rawGap 0 (pySplitlines content)).map fun ln => (ln + 1, gapMsg)

/-- The pairs the blank-line check reports: 0-based line index plus one. -/
def blPairs (content : String) : List (Nat × String) :=
  (rawBlank 0 (pySplitlines content)).map fun ln => (ln + 1, blankMsg)

/-- The four segments of a full validation run, with ordinal bases chained in
check-execution order. -/
def naSeg (content : String) : List Issue :=
  mkIssues 0 (naPairs content)

/-- Second segment: valid-sequence-character issues. -/
def vsSeg (content : String) : List Issue :=
  mkIssues (naPairs content).length (vsPairs content)

/-- Third segment: gap issues. -/
def gapSeg (content : String) : List Issue :=
  mkIssues ((naPairs content).length + (vsPairs content).length) (gapPairs content)

/-- Fourth segment: blank-line issues. -/
def blSeg (content : String) : List Issue :=
  mkIssues ((naPairs content).length + (vsPairs content).length + (gapPairs content).length)
    (blPairs content)

/-- Issues listed with weakly ascending line numbers. -/
def ascLines (l : List Issue) : Prop :=
  l.Pairwise fun a b => a.lineNumber ≤ b.lineNumber

/-- All screener locators for one cell, declaratively. -/
def rawLocsCell (i j : Nat) (cell : String) : Nat → List Char → List Locator
  | _, [] => []
  | k, c :: rest =>
    (if 255 < c.toNat then [⟨i + 1, j + 1, k + 1, c.toNat, c, cell⟩] else []) ++
      rawLocsCell i j cell (k + 1) rest

/-- All screener locators for one row. -/
def rawLocsRow (i : Nat) : Nat → List String → List Locator
  | _, [] => []
  | j, cell :: rest => rawLocsCell i j cell 0 cell.data ++ rawLocsRow i (j + 1) rest

/-- All screener locators for the table. -/
def rawLocsTable : Nat → List (List String) → List Locator
  | _, [] => []
  | i, row :: rows => rawLocsRow i 0 row ++ rawLocsTable (i + 1) rows

/-- Every illegal-character occurrence of the whole table, in scan order. -/
def allLocators (table : List (List String)) : List Locator :=
  rawLocsTable 0 table

/-- Modelled from the spec (§4.2 re-architecture note): the serializer with
`header_blank` computed fresh at each pair's name cell and consulted only for
that pair's sequence cell.  A pair with a blank (or "none") name contributes
nothing; otherwise it contributes the header line and the normalised sequence
line; a trailing unpaired name cell contributes only its header line. -/
def rowLinesPairLocal : List String → List String
  | [] => []
  | [c] =>
    let n := normCell c
    if n = "" then [] else [">" ++ n]
  | c :: d :: rest =>
    let n := normCell c
    (if n = "" then [] else [">" ++ n, normCell d]) ++ rowLinesPairLocal rest

/-- The `header_blank` value left behind after one row (only used to describe
the loop state; it is re-assigned before it is ever consulted again). -/
def rowFlag : Bool → List String → Bool
  | hb, [] => hb
  | _, [c] => if normCell c = "" then true else false
  | _, c :: _ :: rest => rowFlag (if normCell c = "" then true else false) rest


/-! ### Serializer lemmas -/

/-- Two-at-a-time structural induction on lists, matching the serializer's
(name, sequence) pair structure. -/
theorem twoStepInd {α : Type} {motive : List α → Prop}
    (nil : motive []) (single : ∀ c, motive [c])
    (pair : ∀ c d rest, motive rest → motive (c :: d :: rest)) :
    ∀ l, motive l
  | [] => nil
  | [c] => single c
  | c :: d :: rest => pair c d rest (twoStepInd nil single pair rest)

/-- Cells whose stripped text is empty or lowercases to "none" normalise to
the empty string. -/
theorem normCell_blank {s : String}
    (h : pyStrip s = "" ∨ pyLower (pyStrip s) = "none") : normCell s = "" := by
  rcases h with h | h
  · simp only [normCell, h]
    split <;> rfl
  · simp [normCell, h]

/-- The inner serializer loop, started at an even column index, appends
exactly the pair-local lines of the row, and its final flag is `rowFlag`:
the incoming `header_blank` value influences nothing. -/
theorem serCells_eq (cells : List String) : ∀ (j : Nat), j % 2 = 0 →
    ∀ (hb : Bool) (acc : List String),
    serCells j hb cells acc = (rowFlag hb cells, acc ++ rowLinesPairLocal cells) := by
  induction cells using twoStepInd with
  | nil =>
    intro j hj hb acc
    simp [serCells, rowFlag, rowLinesPairLocal]
  | single c =>
    intro j hj hb acc
    by_cases hc : normCell c = "" <;>
      simp [serCells, hj, hc, rowFlag, rowLinesPairLocal]
  | pair c d rest ih =>
    intro j hj hb acc
    have h1 : ¬((j + 1) % 2 = 0) := by omega
    have h2 : (j + 1 + 1) % 2 = 0 := by omega
    by_cases hc : normCell c = ""
    · rw [show serCells j hb (c :: d :: rest) acc
          = serCells (j + 1) true (d :: rest) acc by simp [serCells, hj, hc]]
      rw [show serCells (j + 1) true (d :: rest) acc
          = serCells (j + 1 + 1) true rest acc by simp [serCells, h1]]
      rw [ih (j + 1 + 1) h2 true acc]
      simp [rowFlag, rowLinesPairLocal, hc]
    · rw [show serCells j hb (c :: d :: rest) acc
          = serCells (j + 1) false (d :: rest) (acc ++ [">" ++ normCell c]) by
            simp [serCells, hj, hc]]
      rw [show serCells (j + 1) false (d :: rest) (acc ++ [">" ++ normCell c])
          = serCells (j + 1 + 1) false rest (acc ++ [">" ++ normCell c] ++ [normCell d]) by
            simp [serCells, h1]]
      rw [ih (j + 1 + 1) h2 false (acc ++ [">" ++ normCell c] ++ [normCell d])]
      simp [rowFlag, rowLinesPairLocal, hc]

/-- The outer serializer loop appends, row by row, the pair-local lines of
each row, whatever flag it starts with. -/
theorem serRows_snd (rows : List (List String)) : ∀ (hb : Bool) (acc : List String),
    (serRows hb rows acc).2 = acc ++ (rows.map rowLinesPairLocal).flatten := by
  induction rows with
  | nil => intro hb acc; simp [serRows]
  | cons row rows ih =>
    intro hb acc
    rw [serRows]
    rw [show serCells 0 hb row acc = (rowFlag hb row, acc ++ rowLinesPairLocal row) from
      serCells_eq row 0 (by decide) hb acc]
    rw [ih]
    simp

/-- `fasta_contents` computes the pair-local serialization of the table. -/
theorem fasta_contents_pairLocal (table : List (List String)) :
    fasta_contents table = (table.map rowLinesPairLocal).flatten := by
  rw [fasta_contents, serRows_snd]
  rfl

/-- Pair-local row serialization splits at any even-length prefix. -/
theorem rowLinesPairLocal_append (xs : List String) (ys : List String)
    (h : xs.length % 2 = 0) :
    rowLinesPairLocal (xs ++ ys) = rowLinesPairLocal xs ++ rowLinesPairLocal ys := by
  induction xs using twoStepInd with
  | nil => simp [rowLinesPairLocal]
  | single c => simp at h
  | pair c d rest ih =>
    have h2 : rest.length % 2 = 0 := by
      simp only [List.length_cons] at h
      omega
    simp only [List.cons_append, rowLinesPairLocal, List.append_eq, ih h2, List.append_assoc]

/-- C1 (counterexample): serializing the table
`[["Sample1","ATCGN"], ["","GGCC"], ["Sample2","none"]]` does NOT yield the
FastaText `">Sample1\nATCGN"` claimed in the spec scenario: the non-blank
name "Sample2" emits a header line and the normalised-empty sequence cell
emits an empty line, so the output has four lines, not two. -/
theorem c1_table_scenario_counterexample :
    fasta_str [["Sample1", "ATCGN"], ["", "GGCC"], ["Sample2", "none"]]
      ≠ ">Sample1\nATCGN" := by decide

/-- C1 (amended): serializing `[["Sample1","ATCGN"], ["","GGCC"],
["Sample2","none"]]` yields the FastaText `">Sample1\nATCGN\n>Sample2\n"`:
row 2 is dropped entirely because its name is blank, and for row 3 the
non-blank name "Sample2" leads to a header while the sequence cell "none"
normalises to empty text and is emitted as an empty (trailing) line. -/
theorem c1_table_scenario :
    fasta_str [["Sample1", "ATCGN"], ["", "GGCC"], ["Sample2", "none"]]
      = ">Sample1\nATCGN\n>Sample2\n"
    ∧ fasta_contents [["Sample1", "ATCGN"], ["", "GGCC"], ["Sample2", "none"]]
      = [">Sample1", "ATCGN", ">Sample2", ""] := by
  constructor <;> decide

/-- C8: validating the FastaText `">A\n\nATCG"` yields exactly one issue — a
blank-line issue addressing the blank line (0-based line 1, reported 1-based
as 2) — and no issues from the other three checks. -/
theorem c8_blank_line_scenario :
    check_fasta_file ">A\n\nATCG"
      = [{ issueNumber := 1, lineNumber := 2, issue := "Blank line found" }] := by decide

/-- C9: the serializer of `main`, which threads a single mutable
`header_blank` flag across all rows and columns, emits exactly the same line
sequence as the pair-local serializer in which `header_blank` is computed
fresh at each pair's name cell and consulted only for that pair's sequence
cell — the flag's value never leaks across pairs or rows. -/
theorem c9_header_blank_pair_local (table : List (List String)) :
    fasta_contents table = (table.map rowLinesPairLocal).flatten := by
  rw [fasta_contents, serRows_snd]
  rfl

/-- C4: a (name, sequence) pair whose name cell strips to the empty string or
lowercases to "none" contributes nothing to the serialized output — even when
the sequence text is non-empty, the output equals the output of the same
table with the whole pair removed. -/
theorem c4_blank_or_none_name_drops_pair
    (pre post : List (List String)) (rpre rpost : List String) (name seq : String)
    (hpair : rpre.length % 2 = 0)
    (hname : pyStrip name = "" ∨ pyLower (pyStrip name) = "none") :
    fasta_contents (pre ++ (rpre ++ name :: seq :: rpost) :: post)
      = fasta_contents (pre ++ (rpre ++ rpost) :: post) := by
  have hn : normCell name = "" := normCell_blank hname
  rw [fasta_contents_pairLocal, fasta_contents_pairLocal]
  simp only [List.map_append, List.map_cons, List.flatten_append, List.flatten_cons]
  rw [rowLinesPairLocal_append rpre (name :: seq :: rpost) hpair,
      rowLinesPairLocal_append rpre rpost hpair]
  simp [rowLinesPairLocal, hn]

/-- Witness for C4: the pair ("none", "GGCC") contributes no line. -/
theorem c4_witness :
    (([] : List String).length % 2 = 0)
    ∧ (pyStrip "none" = "" ∨ pyLower (pyStrip "none") = "none")
    ∧ fasta_contents [["none", "GGCC"]] = fasta_contents [([] : List String)] := by
  refine ⟨by decide, by decide, ?_⟩
  exact c4_blank_or_none_name_drops_pair [] [] [] [] "none" "GGCC" (by decide) (by decide)

/-! ### Validator bridging lemmas: loops versus declarative occurrence lists -/

/-- `mkIssues` produces one issue per pair. -/
theorem mkIssues_length (ps : List (Nat × String)) : ∀ (b : Nat),
    (mkIssues b ps).length = ps.length := by
  induction ps with
  | nil => intro b; rfl
  | cons p ps ih =>
    intro b
    obtain ⟨ln, msg⟩ := p
    simp [mkIssues, ih]

/-- `mkIssues` distributes over append, continuing the numbering. -/
theorem mkIssues_append (ps qs : List (Nat × String)) : ∀ (b : Nat),
    mkIssues b (ps ++ qs) = mkIssues b ps ++ mkIssues (b + ps.length) qs := by
  induction ps with
  | nil => intro b; simp [mkIssues]
  | cons p ps ih =>
    intro b
    obtain ⟨ln, msg⟩ := p
    simp only [List.cons_append, mkIssues, List.append_eq, ih, List.length_cons]
    rw [show b + (ps.length + 1) = b + 1 + ps.length by omega]

/-- The `k`-th issue built by `mkIssues b` has ordinal `b + k + 1`. -/
theorem mkIssues_get (ps : List (Nat × String)) : ∀ (b k : Nat)
    (h : k < (mkIssues b ps).length),
    ((mkIssues b ps).get ⟨k, h⟩).issueNumber = b + k + 1 := by
  induction ps with
  | nil => intro b k h; simp [mkIssues] at h
  | cons p ps ih =>
    intro b k h
    obtain ⟨ln, msg⟩ := p
    cases k with
    | zero => rfl
    | succ n =>
      have h' : n < (mkIssues (b + 1) ps).length := by
        simpa [mkIssues] using h
      have := ih (b + 1) n h'
      simp only [mkIssues, List.get_cons_succ]
      rw [this]
      omega

/-- Every pair gives rise to an issue with its line number and message. -/
theorem mkIssues_mem (ps : List (Nat × String)) : ∀ (b : Nat) (ln : Nat) (msg : String),
    (ln, msg) ∈ ps → ∃ n, (⟨n, ln, msg⟩ : Issue) ∈ mkIssues b ps := by
  induction ps with
  | nil => intro b ln msg h; simp at h
  | cons p ps ih =>
    intro b ln msg h
    obtain ⟨ln', msg'⟩ := p
    rcases List.mem_cons.mp h with h | h
    · injection h with h1 h2
      subst h1; subst h2
      exact ⟨b + 1, by simp [mkIssues]⟩
    · obtain ⟨n, hn⟩ := ih (b + 1) ln msg h
      exact ⟨n, by simp [mkIssues, hn]⟩

/-- Every issue built by `mkIssues` carries the line number and message of
one of the pairs. -/
theorem mkIssues_mem_inv (ps : List (Nat × String)) : ∀ (b : Nat) (x : Issue),
    x ∈ mkIssues b ps → ∃ p ∈ ps, x.lineNumber = p.1 ∧ x.issue = p.2 := by
  induction ps with
  | nil => intro b x h; simp [mkIssues] at h
  | cons p ps ih =>
    intro b x h
    obtain ⟨ln', msg'⟩ := p
    rcases List.mem_cons.mp h with h | h
    · exact ⟨(ln', msg'), List.mem_cons_self _ _, by simp [h]⟩
    · obtain ⟨q, hq, hx⟩ := ih (b + 1) x h
      exact ⟨q, List.mem_cons_of_mem _ hq, hx⟩

/-- `mkIssues` preserves weak monotonicity of line numbers. -/
theorem mkIssues_pairwise (ps : List (Nat × String)) : ∀ (b : Nat),
    ps.Pairwise (fun p q => p.1 ≤ q.1) →
    (mkIssues b ps).Pairwise (fun a b => a.lineNumber ≤ b.lineNumber) := by
  induction ps with
  | nil => intro b _; simp [mkIssues]
  | cons p ps ih =>
    intro b hp
    obtain ⟨ln', msg'⟩ := p
    rcases List.pairwise_cons.mp hp with ⟨hhead, htail⟩
    refine List.pairwise_cons.mpr ⟨?_, ih (b + 1) htail⟩
    intro x hx
    obtain ⟨q, hq, hx1, _⟩ := mkIssues_mem_inv ps (b + 1) x hx
    rw [hx1]
    exact hhead q hq

/-- The inner non-ASCII loop appends exactly the issues of its declarative
occurrence list, numbered from the incoming length. -/
theorem naLine_eq (ln : Nat) (cs : List Char) : ∀ (idx : Nat) (issues : List Issue),
    naLine ln idx cs issues
      = issues ++ mkIssues issues.length
          ((rawNALine ln idx cs).map fun p => (p.1, nonAsciiMsg p.2.2 p.2.1)) := by
  induction cs with
  | nil => intro idx issues; simp [naLine, rawNALine, mkIssues]
  | cons c rest ih =>
    intro idx issues
    by_cases h : 127 < c.toNat
    · rw [show naLine ln idx (c :: rest) issues
            = naLine ln (idx + 1) rest (issues ++ [⟨issues.length + 1, ln, nonAsciiMsg c idx⟩]) by
          simp [naLine, h],
        ih,
        show rawNALine ln idx (c :: rest) = (ln, idx, c) :: rawNALine ln (idx + 1) rest by
          simp [rawNALine, h]]
      simp [mkIssues, List.append_assoc]
    · rw [show naLine ln idx (c :: rest) issues = naLine ln (idx + 1) rest issues by
          simp [naLine, h],
        ih,
        show rawNALine ln idx (c :: rest) = rawNALine ln (idx + 1) rest by
          simp [rawNALine, h]]

/-- The outer non-ASCII loop appends exactly the issues of `rawNA`. -/
theorem naLines_eq (lines : List String) : ∀ (ln : Nat) (issues : List Issue),
    naLines ln lines issues
      = issues ++ mkIssues issues.length
          ((rawNA ln lines).map fun p => (p.1, nonAsciiMsg p.2.2 p.2.1)) := by
  induction lines with
  | nil => intro ln issues; simp [naLines, rawNA, mkIssues]
  | cons l rest ih =>
    intro ln issues
    rw [show naLines ln (l :: rest) issues
          = naLines (ln + 1) rest (naLine ln 0 l.data issues) from rfl,
      ih, naLine_eq,
      show rawNA ln (l :: rest) = rawNALine ln 0 l.data ++ rawNA (ln + 1) rest from rfl,
      List.map_append, mkIssues_append]
    simp [mkIssues_length, List.append_assoc]

/-- The inner valid-sequence loop appends exactly the issues of its
declarative occurrence list (line numbers reported 1-based). -/
theorem vsLine_eq (ln : Nat) (cs : List Char) : ∀ (idx : Nat) (issues : List Issue),
    vsLine ln idx cs issues
      = issues ++ mkIssues issues.length
          ((rawVSLine ln idx cs).map fun p => (p.1 + 1, invalidSeqMsg p.2.2 p.2.1)) := by
  induction cs with
  | nil => intro idx issues; simp [vsLine, rawVSLine, mkIssues]
  | cons c rest ih =>
    intro idx issues
    by_cases h : validChar c
    · rw [show vsLine ln idx (c :: rest) issues = vsLine ln (idx + 1) rest issues by
          simp [vsLine, h],
        ih,
        show rawVSLine ln idx (c :: rest) = rawVSLine ln (idx + 1) rest by
          simp [rawVSLine, h]]
    · rw [show vsLine ln idx (c :: rest) issues
            = vsLine ln (idx + 1) rest
                (issues ++ [⟨issues.length + 1, ln + 1, invalidSeqMsg c idx⟩]) by
          simp [vsLine, h],
        ih,
        show rawVSLine ln idx (c :: rest) = (ln, idx, c) :: rawVSLine ln (idx + 1) rest by
          simp [rawVSLine, h]]
      simp [mkIssues, List.append_assoc]

/-- The outer valid-sequence loop appends exactly the issues of `rawVS`. -/
theorem vsLines_eq (lines : List String) : ∀ (ln : Nat) (issues : List Issue),
    vsLines ln lines issues
      = issues ++ mkIssues issues.length
          ((rawVS ln lines).map fun p => (p.1 + 1, invalidSeqMsg p.2.2 p.2.1)) := by
  induction lines with
  | nil => intro ln issues; simp [vsLines, rawVS, mkIssues]
  | cons l rest ih =>
    intro ln issues
    by_cases h : startsHeader l ∨ pyStrip l = ""
    · rw [show vsLines ln (l :: rest) issues = vsLines (ln + 1) rest issues by
          simp [vsLines, h],
        ih,
        show rawVS ln (l :: rest) = rawVS (ln + 1) rest by simp [rawVS, h]]
    · rw [show vsLines ln (l :: rest) issues
            = vsLines (ln + 1) rest (vsLine ln 0 (despace (pyStripList l.data)) issues) by
          simp [vsLines, h],
        ih, vsLine_eq,
        show rawVS ln (l :: rest)
            = rawVSLine ln 0 (despace (pyStripList l.data)) ++ rawVS (ln + 1) rest by
          simp [rawVS, h],
        List.map_append, mkIssues_append]
      simp [mkIssues_length, List.append_assoc]

/-- The gap loop appends exactly the issues of `rawGap` (1-based reporting). -/
theorem gapLines_eq (lines : List String) : ∀ (ln : Nat) (issues : List Issue),
    gapLines ln lines issues
      = issues ++ mkIssues issues.length
          ((rawGap ln lines).map fun n => (n + 1, gapMsg)) := by
  induction lines with
  | nil => intro ln issues; simp [gapLines, rawGap, mkIssues]
  | cons l rest ih =>
    intro ln issues
    by_cases h : startsHeader l ∨ pyStrip l = ""
    · rw [show gapLines ln (l :: rest) issues = gapLines (ln + 1) rest issues by
          simp [gapLines, h],
        ih,
        show rawGap ln (l :: rest) = rawGap (ln + 1) rest by simp [rawGap, h]]
    · by_cases hg : ' ' ∈ l.data ∨ '\t' ∈ l.data
      · rw [show gapLines ln (l :: rest) issues
              = gapLines (ln + 1) rest (issues ++ [⟨issues.length + 1, ln + 1, gapMsg⟩]) by
            simp [gapLines, h, hg],
          ih,
          show rawGap ln (l :: rest) = ln :: rawGap (ln + 1) rest by simp [rawGap, h, hg]]
        simp [mkIssues, List.append_assoc]
      · rw [show gapLines ln (l :: rest) issues = gapLines (ln + 1) rest issues by
            simp [gapLines, h, hg],
          ih,
          show rawGap ln (l :: rest) = rawGap (ln + 1) rest by simp [rawGap, h, hg]]

/-- The blank-line loop appends exactly the issues of `rawBlank`
(1-based reporting). -/
theorem blLines_eq (lines : List String) : ∀ (ln : Nat) (issues : List Issue),
    blLines ln lines issues
      = issues ++ mkIssues issues.length
          ((rawBlank ln lines).map fun n => (n + 1, blankMsg)) := by
  induction lines with
  | nil => intro ln issues; simp [blLines, rawBlank, mkIssues]
  | cons l rest ih =>
    intro ln issues
    by_cases h : pyStrip l = ""
    · rw [show blLines ln (l :: rest) issues
            = blLines (ln + 1) rest (issues ++ [⟨issues.length + 1, ln + 1, blankMsg⟩]) by
          simp [blLines, h],
        ih,
        show rawBlank ln (l :: rest) = ln :: rawBlank (ln + 1) rest by simp [rawBlank, h]]
      simp [mkIssues, List.append_assoc]
    · rw [show blLines ln (l :: rest) issues = blLines (ln + 1) rest issues by
          simp [blLines, h],
        ih,
        show rawBlank ln (l :: rest) = rawBlank (ln + 1) rest by simp [rawBlank, h]]

/-- `check_non_ascii` in terms of its declarative pair list. -/
theorem check_non_ascii_eq (content : String) (issues : List Issue) :
    check_non_ascii content issues = issues ++ mkIssues issues.length (naPairs content) :=
  naLines_eq (pySplitlines content) 0 issues

/-- `check_valid_sequence` in terms of its declarative pair list. -/
theorem check_valid_sequence_eq (content : String) (issues : List Issue) :
    check_valid_sequence content issues = issues ++ mkIssues issues.length (vsPairs content) :=
  vsLines_eq (pySplitlines content) 0 issues

/-- `check_gaps` in terms of its declarative pair list. -/
theorem check_gaps_eq (content : String) (issues : List Issue) :
    check_gaps content issues = issues ++ mkIssues issues.length (gapPairs content) :=
  gapLines_eq (pySplitlines content) 0 issues

/-- `check_blank_lines` in terms of its declarative pair list. -/
theorem check_blank_lines_eq (content : String) (issues : List Issue) :
    check_blank_lines content issues = issues ++ mkIssues issues.length (blPairs content) :=
  blLines_eq (pySplitlines content) 0 issues

/-- A full validation run is the concatenation of the four check segments in
execution order, with ordinal bases chained. -/
theorem check_fasta_file_eq (content : String) :
    check_fasta_file content
      = naSeg content ++ vsSeg content ++ gapSeg content ++ blSeg content := by
  rw [check_fasta_file, check_non_ascii_eq, check_valid_sequence_eq, check_gaps_eq,
    check_blank_lines_eq]
  simp [naSeg, vsSeg, gapSeg, blSeg, mkIssues_length, List.append_assoc, Nat.add_assoc]

/-! ### Occurrence-list characterizations -/

/-- Every entry of `rawNALine` is an above-127 character of the scanned line,
tagged with the line index `ln` itself and with its in-line position. -/
theorem rawNALine_mem (ln : Nat) (cs : List Char) : ∀ (idx : Nat) (p : Nat × Nat × Char),
    p ∈ rawNALine ln idx cs →
    p.1 = ln ∧ ∃ k, p.2.1 = idx + k ∧ cs[k]? = some p.2.2 ∧ 127 < p.2.2.toNat := by
  induction cs with
  | nil => intro idx p h; simp [rawNALine] at h
  | cons c rest ih =>
    intro idx p h
    rw [rawNALine] at h
    rcases List.mem_append.mp h with h | h
    · by_cases hc : 127 < c.toNat
      · simp only [hc, if_pos, List.mem_singleton] at h
        subst h
        exact ⟨rfl, 0, by simp [hc]⟩
      · simp [hc] at h
    · obtain ⟨h1, k, h2, h3, h4⟩ := ih (idx + 1) p h
      exact ⟨h1, k + 1, by omega, by simpa using h3, h4⟩

/-- Every entry of `rawNA` points at an above-127 character of one of the
lines: its first component is the 0-based index (counted from `ln`) of the
line containing the offending character. -/
theorem rawNA_mem (lines : List String) : ∀ (ln : Nat) (p : Nat × Nat × Char),
    p ∈ rawNA ln lines →
    ∃ k l, lines[k]? = some l ∧ p.1 = ln + k
      ∧ l.data[p.2.1]? = some p.2.2 ∧ 127 < p.2.2.toNat := by
  induction lines with
  | nil => intro ln p h; simp [rawNA] at h
  | cons l rest ih =>
    intro ln p h
    rw [rawNA] at h
    rcases List.mem_append.mp h with h | h
    · obtain ⟨h1, k, h2, h3, h4⟩ := rawNALine_mem ln l.data 0 p h
      refine ⟨0, l, by simp, by omega, ?_, h4⟩
      rw [show p.2.1 = k by omega]
      exact h3
    · obtain ⟨k, l', h1, h2, h3, h4⟩ := ih (ln + 1) p h
      exact ⟨k + 1, l', by simpa using h1, by omega, h3, h4⟩

/-- Every entry of `rawVSLine` is an invalid character of the cleaned
sequence it scans, at its position within that cleaned sequence. -/
theorem rawVSLine_mem (ln : Nat) (cs : List Char) : ∀ (idx : Nat) (p : Nat × Nat × Char),
    p ∈ rawVSLine ln idx cs →
    p.1 = ln ∧ ∃ k, p.2.1 = idx + k ∧ cs[k]? = some p.2.2 ∧ validChar p.2.2 = false := by
  induction cs with
  | nil => intro idx p h; simp [rawVSLine] at h
  | cons c rest ih =>
    intro idx p h
    rw [rawVSLine] at h
    rcases List.mem_append.mp h with h | h
    · by_cases hc : validChar c
      · simp [hc] at h
      · simp only [hc, if_neg, Bool.false_eq_true, not_false_eq_true, List.mem_singleton] at h
        subst h
        exact ⟨rfl, 0, by simp [hc]⟩
    · obtain ⟨h1, k, h2, h3, h4⟩ := ih (idx + 1) p h
      exact ⟨h1, k + 1, by omega, by simpa using h3, h4⟩

/-- Every entry of `rawVS` points at an invalid character, within the
stripped-and-despaced text of a non-header, non-blank line; its first
component is the 0-based line index counted from `ln`. -/
theorem rawVS_mem (lines : List String) : ∀ (ln : Nat) (p : Nat × Nat × Char),
    p ∈ rawVS ln lines →
    ∃ k l, lines[k]? = some l ∧ p.1 = ln + k
      ∧ startsHeader l = false ∧ pyStrip l ≠ ""
      ∧ (despace (pyStripList l.data))[p.2.1]? = some p.2.2
      ∧ validChar p.2.2 = false := by
  induction lines with
  | nil => intro ln p h; simp [rawVS] at h
  | cons l rest ih =>
    intro ln p h
    rw [rawVS] at h
    by_cases hc : startsHeader l ∨ pyStrip l = ""
    · rw [if_pos hc] at h
      obtain ⟨k, l', h1, h2, h3, h4, h5, h6⟩ := ih (ln + 1) p h
      exact ⟨k + 1, l', by simpa using h1, by omega, h3, h4, h5, h6⟩
    · rw [if_neg hc] at h
      push_neg at hc
      rcases List.mem_append.mp h with h | h
      · obtain ⟨h1, k, h2, h3, h4⟩ := rawVSLine_mem ln _ 0 p h
        refine ⟨0, l, by simp, by omega, by simpa using hc.1, hc.2, ?_, h4⟩
        rw [show p.2.1 = k by omega]
        exact h3
      · obtain ⟨k, l', h1, h2, h3, h4, h5, h6⟩ := ih (ln + 1) p h
        exact ⟨k + 1, l', by simpa using h1, by omega, h3, h4, h5, h6⟩

/-- Every entry of `rawGap` is the 0-based index (counted from `ln`) of a
non-header, non-blank line containing a space or tab. -/
theorem rawGap_mem (lines : List String) : ∀ (ln : Nat) (n : Nat),
    n ∈ rawGap ln lines →
    ∃ k l, lines[k]? = some l ∧ n = ln + k
      ∧ startsHeader l = false ∧ pyStrip l ≠ ""
      ∧ (' ' ∈ l.data ∨ '\t' ∈ l.data) := by
  induction lines with
  | nil => intro ln n h; simp [rawGap] at h
  | cons l rest ih =>
    intro ln n h
    rw [rawGap] at h
    by_cases hc : startsHeader l ∨ pyStrip l = ""
    · rw [if_pos hc] at h
      obtain ⟨k, l', h1, h2, h3, h4, h5⟩ := ih (ln + 1) n h
      exact ⟨k + 1, l', by simpa using h1, by omega, h3, h4, h5⟩
    · rw [if_neg hc] at h
      push_neg at hc
      by_cases hg : ' ' ∈ l.data ∨ '\t' ∈ l.data
      · rw [if_pos hg] at h
        rcases List.mem_cons.mp h with h | h
        · exact ⟨0, l, by simp, by omega, by simpa using hc.1, hc.2, hg⟩
        · obtain ⟨k, l', h1, h2, h3, h4, h5⟩ := ih (ln + 1) n h
          exact ⟨k + 1, l', by simpa using h1, by omega, h3, h4, h5⟩
      · rw [if_neg hg] at h
        obtain ⟨k, l', h1, h2, h3, h4, h5⟩ := ih (ln + 1) n h
        exact ⟨k + 1, l', by simpa using h1, by omega, h3, h4, h5⟩

/-- Every entry of `rawBlank` is the 0-based index (counted from `ln`) of a
line that strips to nothing. -/
theorem rawBlank_mem (lines : List String) : ∀ (ln : Nat) (n : Nat),
    n ∈ rawBlank ln lines →
    ∃ k l, lines[k]? = some l ∧ n = ln + k ∧ pyStrip l = "" := by
  induction lines with
  | nil => intro ln n h; simp [rawBlank] at h
  | cons l rest ih =>
    intro ln n h
    rw [rawBlank] at h
    by_cases hc : pyStrip l = ""
    · rw [if_pos hc] at h
      rcases List.mem_cons.mp h with h | h
      · exact ⟨0, l, by simp, by omega, hc⟩
      · obtain ⟨k, l', h1, h2, h3⟩ := ih (ln + 1) n h
        exact ⟨k + 1, l', by simpa using h1, by omega, h3⟩
    · rw [if_neg hc] at h
      obtain ⟨k, l', h1, h2, h3⟩ := ih (ln + 1) n h
      exact ⟨k + 1, l', by simpa using h1, by omega, h3⟩

/-! ### Emptiness of the occurrence lists on clean input -/

/-- A line of ASCII characters contributes no non-ASCII occurrence. -/
theorem rawNALine_nil (ln : Nat) (cs : List Char)
    (h : ∀ c ∈ cs, c.toNat ≤ 127) : ∀ (idx : Nat), rawNALine ln idx cs = [] := by
  induction cs with
  | nil => intro idx; rfl
  | cons c rest ih =>
    intro idx
    have hc : ¬(127 < c.toNat) := by
      have := h c (List.mem_cons_self c rest)
      omega
    simp only [rawNALine, hc, if_neg, not_false_eq_true]
    simpa using ih (fun c hmem => h c (List.mem_cons_of_mem _ hmem)) (idx + 1)

/-- ASCII-only lines contribute no non-ASCII occurrences. -/
theorem rawNA_nil (lines : List String)
    (h : ∀ l ∈ lines, ∀ c ∈ l.data, c.toNat ≤ 127) : ∀ (ln : Nat), rawNA ln lines = [] := by
  induction lines with
  | nil => intro ln; rfl
  | cons l rest ih =>
    intro ln
    rw [rawNA, rawNALine_nil ln l.data (h l (List.mem_cons_self l rest)) 0,
      ih (fun l' hmem => h l' (List.mem_cons_of_mem _ hmem)) (ln + 1)]
    rfl

/-- Characters of a despaced strip of a list are characters of the list. -/
theorem mem_of_mem_despace_strip {c : Char} {l : List Char}
    (h : c ∈ despace (pyStripList l)) : c ∈ l := by
  have h1 : c ∈ pyStripList l := List.mem_of_mem_filter h
  rw [pyStripList, List.mem_reverse] at h1
  have h2 : c ∈ (l.dropWhile pyIsSpace).reverse :=
    (List.dropWhile_sublist _).subset h1
  rw [List.mem_reverse] at h2
  exact (List.dropWhile_sublist _).subset h2

/-- A valid-character-only cleaned line contributes no invalid-character
occurrence. -/
theorem rawVSLine_nil (ln : Nat) (cs : List Char)
    (h : ∀ c ∈ cs, validChar c = true) : ∀ (idx : Nat), rawVSLine ln idx cs = [] := by
  induction cs with
  | nil => intro idx; rfl
  | cons c rest ih =>
    intro idx
    have hc : validChar c := h c (List.mem_cons_self c rest)
    simp only [rawVSLine, hc, if_pos]
    simpa using ih (fun c hmem => h c (List.mem_cons_of_mem _ hmem)) (idx + 1)

/-- Lines whose non-header text uses only valid characters contribute no
invalid-character occurrences. -/
theorem rawVS_nil (lines : List String)
    (h : ∀ l ∈ lines, startsHeader l = false → ∀ c ∈ l.data, validChar c = true) :
    ∀ (ln : Nat), rawVS ln lines = [] := by
  induction lines with
  | nil => intro ln; rfl
  | cons l rest ih =>
    intro ln
    rw [rawVS]
    by_cases hc : startsHeader l ∨ pyStrip l = ""
    · rw [if_pos hc]
      exact ih (fun l' hmem => h l' (List.mem_cons_of_mem _ hmem)) (ln + 1)
    · rw [if_neg hc]
      push_neg at hc
      have hdr : startsHeader l = false := by simpa using hc.1
      rw [rawVSLine_nil ln _
        (fun c hmem => h l (List.mem_cons_self l rest) hdr c (mem_of_mem_despace_strip hmem)) 0]
      simpa using ih (fun l' hmem => h l' (List.mem_cons_of_mem _ hmem)) (ln + 1)

/-- Lines whose non-header text contains no space and no tab contribute no
gap occurrences. -/
theorem rawGap_nil (lines : List String)
    (h : ∀ l ∈ lines, startsHeader l = false → ¬(' ' ∈ l.data ∨ '\t' ∈ l.data)) :
    ∀ (ln : Nat), rawGap ln lines = [] := by
  induction lines with
  | nil => intro ln; rfl
  | cons l rest ih =>
    intro ln
    rw [rawGap]
    by_cases hc : startsHeader l ∨ pyStrip l = ""
    · rw [if_pos hc]
      exact ih (fun l' hmem => h l' (List.mem_cons_of_mem _ hmem)) (ln + 1)
    · rw [if_neg hc]
      push_neg at hc
      have hdr : startsHeader l = false := by simpa using hc.1
      rw [if_neg (h l (List.mem_cons_self l rest) hdr)]
      exact ih (fun l' hmem => h l' (List.mem_cons_of_mem _ hmem)) (ln + 1)

/-- Non-blank lines contribute no blank-line occurrences. -/
theorem rawBlank_nil (lines : List String)
    (h : ∀ l ∈ lines, pyStrip l ≠ "") : ∀ (ln : Nat), rawBlank ln lines = [] := by
  induction lines with
  | nil => intro ln; rfl
  | cons l rest ih =>
    intro ln
    rw [rawBlank, if_neg (h l (List.mem_cons_self l rest))]
    exact ih (fun l' hmem => h l' (List.mem_cons_of_mem _ hmem)) (ln + 1)

/-- C2: for every FastaText whose non-header lines contain only characters
from the case-insensitive set A,T,C,G,N,(,) — which in particular excludes
spaces and tabs — with no blank or whitespace-only lines and no character
with code point above 127 on any line, the validator (all four checks run in
order) returns an empty issue list. -/
theorem c2_clean_fasta_no_issues (content : String)
    (hvalid : ∀ l ∈ pySplitlines content, startsHeader l = false →
      ∀ c ∈ l.data, validChar c = true)
    (hblank : ∀ l ∈ pySplitlines content, pyStrip l ≠ "")
    (hascii : ∀ l ∈ pySplitlines content, ∀ c ∈ l.data, c.toNat ≤ 127) :
    check_fasta_file content = [] := by
  have hgap : ∀ l ∈ pySplitlines content, startsHeader l = false →
      ¬(' ' ∈ l.data ∨ '\t' ∈ l.data) := by
    intro l hl hdr hmem
    rcases hmem with hmem | hmem
    · have := hvalid l hl hdr ' ' hmem
      simp [validChar] at this
    · have := hvalid l hl hdr '\t' hmem
      simp [validChar] at this
  rw [check_fasta_file_eq]
  rw [naSeg, vsSeg, gapSeg, blSeg, naPairs, vsPairs, gapPairs, blPairs,
    rawNA_nil _ hascii 0, rawVS_nil _ hvalid 0, rawGap_nil _ hgap 0, rawBlank_nil _ hblank 0]
  rfl

/-- Witness for C2: the clean FastaText `">Sample\nATCGN"` validates cleanly. -/
theorem c2_witness :
    (∀ l ∈ pySplitlines ">Sample\nATCGN", startsHeader l = false →
      ∀ c ∈ l.data, validChar c = true)
    ∧ (∀ l ∈ pySplitlines ">Sample\nATCGN", pyStrip l ≠ "")
    ∧ (∀ l ∈ pySplitlines ">Sample\nATCGN", ∀ c ∈ l.data, c.toNat ≤ 127)
    ∧ check_fasta_file ">Sample\nATCGN" = [] := by
  refine ⟨by decide, by decide, by decide, ?_⟩
  exact c2_clean_fasta_no_issues ">Sample\nATCGN" (by decide) (by decide) (by decide)

/-! ### Ordering of the occurrence lists -/

/-- Non-ASCII occurrences are listed with weakly ascending line indices. -/
theorem rawNA_pairwise (lines : List String) : ∀ (ln : Nat),
    (rawNA ln lines).Pairwise (fun p q => p.1 ≤ q.1) := by
  induction lines with
  | nil => intro ln; simp [rawNA]
  | cons l rest ih =>
    intro ln
    rw [rawNA, List.pairwise_append]
    refine ⟨?_, ih (ln + 1), ?_⟩
    · apply List.pairwise_of_forall_mem_list
      intro a ha b hb
      have h1 := (rawNALine_mem ln l.data 0 a ha).1
      have h2 := (rawNALine_mem ln l.data 0 b hb).1
      omega
    · intro a ha b hb
      have h1 := (rawNALine_mem ln l.data 0 a ha).1
      obtain ⟨k, l', _, h2, _, _⟩ := rawNA_mem rest (ln + 1) b hb
      omega

/-- Invalid-character occurrences are listed with weakly ascending line
indices. -/
theorem rawVS_pairwise (lines : List String) : ∀ (ln : Nat),
    (rawVS ln lines).Pairwise (fun p q => p.1 ≤ q.1) := by
  induction lines with
  | nil => intro ln; simp [rawVS]
  | cons l rest ih =>
    intro ln
    rw [rawVS]
    by_cases hc : startsHeader l ∨ pyStrip l = ""
    · rw [if_pos hc]
      exact ih (ln + 1)
    · rw [if_neg hc, List.pairwise_append]
      refine ⟨?_, ih (ln + 1), ?_⟩
      · apply List.pairwise_of_forall_mem_list
        intro a ha b hb
        have h1 := (rawVSLine_mem ln _ 0 a ha).1
        have h2 := (rawVSLine_mem ln _ 0 b hb).1
        omega
      · intro a ha b hb
        have h1 := (rawVSLine_mem ln _ 0 a ha).1
        obtain ⟨k, l', _, h2, _⟩ := rawVS_mem rest (ln + 1) b hb
        omega

/-- Gap occurrences are listed with weakly ascending line indices. -/
theorem rawGap_pairwise (lines : List String) : ∀ (ln : Nat),
    (rawGap ln lines).Pairwise (· ≤ ·) := by
  induction lines with
  | nil => intro ln; simp [rawGap]
  | cons l rest ih =>
    intro ln
    rw [rawGap]
    by_cases hc : startsHeader l ∨ pyStrip l = ""
    · rw [if_pos hc]
      exact ih (ln + 1)
    · rw [if_neg hc]
      by_cases hg : ' ' ∈ l.data ∨ '\t' ∈ l.data
      · rw [if_pos hg]
        refine List.pairwise_cons.mpr ⟨?_, ih (ln + 1)⟩
        intro b hb
        obtain ⟨k, l', _, h2, _⟩ := rawGap_mem rest (ln + 1) b hb
        omega
      · rw [if_neg hg]
        exact ih (ln + 1)

/-- Blank-line occurrences are listed with weakly ascending line indices. -/
theorem rawBlank_pairwise (lines : List String) : ∀ (ln : Nat),
    (rawBlank ln lines).Pairwise (· ≤ ·) := by
  induction lines with
  | nil => intro ln; simp [rawBlank]
  | cons l rest ih =>
    intro ln
    rw [rawBlank]
    by_cases hc : pyStrip l = ""
    · rw [if_pos hc]
      refine List.pairwise_cons.mpr ⟨?_, ih (ln + 1)⟩
      intro b hb
      obtain ⟨k, l', _, h2, _⟩ := rawBlank_mem rest (ln + 1) b hb
      omega
    · rw [if_neg hc]
      exact ih (ln + 1)

/-- Ordinals of an appended issue list continue the numbering of the first
part. -/
theorem ord_append (xs ys : List Issue) : ∀ (b : Nat),
    (∀ (k : Nat) (h : k < xs.length), (xs.get ⟨k, h⟩).issueNumber = b + k + 1) →
    (∀ (k : Nat) (h : k < ys.length), (ys.get ⟨k, h⟩).issueNumber = b + xs.length + k + 1) →
    ∀ (k : Nat) (h : k < (xs ++ ys).length),
      ((xs ++ ys).get ⟨k, h⟩).issueNumber = b + k + 1 := by
  induction xs with
  | nil =>
    intro b hx hy k h
    simp only [List.nil_append] at h ⊢
    have := hy k h
    simpa using this
  | cons x xs ih =>
    intro b hx hy k h
    cases k with
    | zero =>
      have := hx 0 (by simp)
      simpa using this
    | succ n =>
      have hx' : ∀ (k : Nat) (hk : k < xs.length),
          (xs.get ⟨k, hk⟩).issueNumber = (b + 1) + k + 1 := by
        intro k hk
        rw [show (b + 1) + k + 1 = b + (k + 1) + 1 by omega]
        have := hx (k + 1) (by simpa using Nat.succ_lt_succ hk)
        simpa using this
      have hy' : ∀ (k : Nat) (hk : k < ys.length),
          (ys.get ⟨k, hk⟩).issueNumber = (b + 1) + xs.length + k + 1 := by
        intro k hk
        rw [show (b + 1) + xs.length + k + 1 = b + (x :: xs).length + k + 1 by
          simp [List.length_cons]; omega]
        exact hy k hk
      have h' : n < (xs ++ ys).length := by simpa using h
      have := ih (b + 1) hx' hy' n h'
      simp only [List.cons_append, List.get_cons_succ]
      rw [this]
      omega

/-- Ordinals across a full validation run are the 1-based positions. -/
theorem check_fasta_file_ordinals (content : String) :
    ∀ (k : Nat) (h : k < (check_fasta_file content).length),
      ((check_fasta_file content).get ⟨k, h⟩).issueNumber = k + 1 := by
  have lA : (naSeg content).length = (naPairs content).length := mkIssues_length _ 0
  have lB : (vsSeg content).length = (vsPairs content).length := mkIssues_length _ _
  have lC : (gapSeg content).length = (gapPairs content).length := mkIssues_length _ _
  have hna : ∀ (k : Nat) (h : k < (naSeg content).length),
      ((naSeg content).get ⟨k, h⟩).issueNumber = 0 + k + 1 := by
    intro k h
    have := mkIssues_get (naPairs content) 0 k h
    simpa using this
  have hvs : ∀ (k : Nat) (h : k < (vsSeg content).length),
      ((vsSeg content).get ⟨k, h⟩).issueNumber = 0 + (naSeg content).length + k + 1 := by
    intro k h
    have heq := mkIssues_get (vsPairs content) (naPairs content).length k h
    rw [lA,
      show (0 : Nat) + (naPairs content).length + k + 1 = (naPairs content).length + k + 1 by
        omega]
    exact heq
  have h12 : ∀ (k : Nat) (h : k < (naSeg content ++ vsSeg content).length),
      ((naSeg content ++ vsSeg content).get ⟨k, h⟩).issueNumber = 0 + k + 1 :=
    ord_append _ _ 0 hna hvs
  have hgap : ∀ (k : Nat) (h : k < (gapSeg content).length),
      ((gapSeg content).get ⟨k, h⟩).issueNumber
        = 0 + (naSeg content ++ vsSeg content).length + k + 1 := by
    intro k h
    have heq := mkIssues_get (gapPairs content)
      ((naPairs content).length + (vsPairs content).length) k h
    rw [List.length_append, lA, lB,
      show (0 : Nat) + ((naPairs content).length + (vsPairs content).length) + k + 1
        = (naPairs content).length + (vsPairs content).length + k + 1 by omega]
    exact heq
  have h123 : ∀ (k : Nat) (h : k < (naSeg content ++ vsSeg content ++ gapSeg content).length),
      ((naSeg content ++ vsSeg content ++ gapSeg content).get ⟨k, h⟩).issueNumber
        = 0 + k + 1 :=
    ord_append _ _ 0 h12 hgap
  have hbl : ∀ (k : Nat) (h : k < (blSeg content).length),
      ((blSeg content).get ⟨k, h⟩).issueNumber
        = 0 + (naSeg content ++ vsSeg content ++ gapSeg content).length + k + 1 := by
    intro k h
    have heq := mkIssues_get (blPairs content)
      ((naPairs content).length + (vsPairs content).length + (gapPairs content).length) k h
    rw [List.length_append, List.length_append, lA, lB, lC,
      show (0 : Nat) + ((naPairs content).length + (vsPairs content).length
          + (gapPairs content).length) + k + 1
        = (naPairs content).length + (vsPairs content).length + (gapPairs content).length
          + k + 1 by omega]
    exact heq
  have hall := ord_append _ _ 0 h123 hbl
  rw [check_fasta_file_eq]
  intro k h
  have := hall k h
  simpa using this

/-- C5: for every FastaText and incoming issue list, the non-ASCII check
appends issues whose line field is the **0-based** index of the line
containing the offending character (taken from `rawNA`, whose entries all
point into the split lines as shown by the membership conjunct), while the
valid-sequence-character, gap and blank-line checks append issues whose line
field is the 0-based index **plus one**. -/
theorem c5_line_number_bases (content : String) (issues : List Issue) :
    (check_non_ascii content issues = issues ++ mkIssues issues.length (naPairs content)
      ∧ naPairs content
          = (rawNA 0 (pySplitlines content)).map (fun p => (p.1, nonAsciiMsg p.2.2 p.2.1))
      ∧ ∀ p ∈ rawNA 0 (pySplitlines content),
          ∃ l, (pySplitlines content)[p.1]? = some l
            ∧ l.data[p.2.1]? = some p.2.2 ∧ 127 < p.2.2.toNat)
    ∧ (check_valid_sequence content issues = issues ++ mkIssues issues.length (vsPairs content)
      ∧ vsPairs content
          = (rawVS 0 (pySplitlines content)).map (fun p => (p.1 + 1, invalidSeqMsg p.2.2 p.2.1))
      ∧ ∀ p ∈ rawVS 0 (pySplitlines content),
          ∃ l, (pySplitlines content)[p.1]? = some l
            ∧ startsHeader l = false ∧ pyStrip l ≠ ""
            ∧ (despace (pyStripList l.data))[p.2.1]? = some p.2.2
            ∧ validChar p.2.2 = false)
    ∧ (check_gaps content issues = issues ++ mkIssues issues.length (gapPairs content)
      ∧ gapPairs content = (rawGap 0 (pySplitlines content)).map (fun n => (n + 1, gapMsg))
      ∧ ∀ n ∈ rawGap 0 (pySplitlines content),
          ∃ l, (pySplitlines content)[n]? = some l
            ∧ startsHeader l = false ∧ pyStrip l ≠ ""
            ∧ (' ' ∈ l.data ∨ '\t' ∈ l.data))
    ∧ (check_blank_lines content issues = issues ++ mkIssues issues.length (blPairs content)
      ∧ blPairs content = (rawBlank 0 (pySplitlines content)).map (fun n => (n + 1, blankMsg))
      ∧ ∀ n ∈ rawBlank 0 (pySplitlines content),
          ∃ l, (pySplitlines content)[n]? = some l ∧ pyStrip l = "") := by
  refine ⟨⟨check_non_ascii_eq content issues, rfl, ?_⟩,
    ⟨check_valid_sequence_eq content issues, rfl, ?_⟩,
    ⟨check_gaps_eq content issues, rfl, ?_⟩,
    ⟨check_blank_lines_eq content issues, rfl, ?_⟩⟩
  · intro p hp
    obtain ⟨k, l, h1, h2, h3, h4⟩ := rawNA_mem (pySplitlines content) 0 p hp
    refine ⟨l, ?_, h3, h4⟩
    rw [show p.1 = k by omega]
    exact h1
  · intro p hp
    obtain ⟨k, l, h1, h2, h3, h4, h5, h6⟩ := rawVS_mem (pySplitlines content) 0 p hp
    refine ⟨l, ?_, h3, h4, h5, h6⟩
    rw [show p.1 = k by omega]
    exact h1
  · intro n hn
    obtain ⟨k, l, h1, h2, h3, h4, h5⟩ := rawGap_mem (pySplitlines content) 0 n hn
    refine ⟨l, ?_, h3, h4, h5⟩
    rw [show n = k by omega]
    exact h1
  · intro n hn
    obtain ⟨k, l, h1, h2, h3⟩ := rawBlank_mem (pySplitlines content) 0 n hn
    refine ⟨l, ?_, h3⟩
    rw [show n = k by omega]
    exact h1

/-- Witness for C5: the non-ASCII bridging equality at a concrete input. -/
theorem c5_witness :
    check_non_ascii ">A\nB C" [] = [] ++ mkIssues ([] : List Issue).length (naPairs ">A\nB C") :=
  (c5_line_number_bases ">A\nB C" []).1.1

/-- C6: a full validation run lists issues in check-execution order —
non-ASCII, then valid-sequence-characters, then gaps, then blank lines —
each segment with weakly ascending line numbers, and the ordinal of the
`k`-th issue of the run is exactly `k + 1` (1-based position), strictly
increasing across the whole run regardless of which check produced it. -/
theorem c6_issue_order_and_ordinals (content : String) :
    check_fasta_file content
      = naSeg content ++ vsSeg content ++ gapSeg content ++ blSeg content
    ∧ (∀ (k : Nat) (h : k < (check_fasta_file content).length),
        ((check_fasta_file content).get ⟨k, h⟩).issueNumber = k + 1)
    ∧ ascLines (naSeg content) ∧ ascLines (vsSeg content)
    ∧ ascLines (gapSeg content) ∧ ascLines (blSeg content) := by
  refine ⟨check_fasta_file_eq content, check_fasta_file_ordinals content, ?_, ?_, ?_, ?_⟩
  · apply mkIssues_pairwise
    rw [naPairs, List.pairwise_map]
    exact (rawNA_pairwise _ 0).imp (fun h => h)
  · apply mkIssues_pairwise
    rw [vsPairs, List.pairwise_map]
    exact (rawVS_pairwise _ 0).imp (fun h => by omega)
  · apply mkIssues_pairwise
    rw [gapPairs, List.pairwise_map]
    exact (rawGap_pairwise _ 0).imp (fun h => by omega)
  · apply mkIssues_pairwise
    rw [blPairs, List.pairwise_map]
    exact (rawBlank_pairwise _ 0).imp (fun h => by omega)

/-- Witness for C6: the segment decomposition at a concrete input. -/
theorem c6_witness :
    check_fasta_file ">A\nB C"
      = naSeg ">A\nB C" ++ vsSeg ">A\nB C" ++ gapSeg ">A\nB C" ++ blSeg ">A\nB C" :=
  (c6_issue_order_and_ordinals ">A\nB C").1

/-! ### From a concrete offending line to issues in the report -/

/-- A gap-carrying non-header, non-blank line at position `k` of the line
list puts `ln + k` into `rawGap ln`. -/
theorem rawGap_of_getElem (lines : List String) : ∀ (ln k : Nat) (l : String),
    lines[k]? = some l → startsHeader l = false → pyStrip l ≠ "" →
    (' ' ∈ l.data ∨ '\t' ∈ l.data) → (ln + k) ∈ rawGap ln lines := by
  induction lines with
  | nil => intro ln k l h _ _ _; simp at h
  | cons l0 rest ih =>
    intro ln k l h hdr hblank hg
    cases k with
    | zero =>
      simp only [List.getElem?_cons_zero, Option.some.injEq] at h
      subst h
      rw [rawGap, if_neg (by simp [hdr, hblank]), if_pos hg]
      exact List.mem_cons_self _ _
    | succ n =>
      simp only [List.getElem?_cons_succ] at h
      have hmem := ih (ln + 1) n l h hdr hblank hg
      rw [show ln + (n + 1) = (ln + 1) + n by omega, rawGap]
      by_cases hc : startsHeader l0 ∨ pyStrip l0 = ""
      · rw [if_pos hc]; exact hmem
      · rw [if_neg hc]
        by_cases hg0 : ' ' ∈ l0.data ∨ '\t' ∈ l0.data
        · rw [if_pos hg0]; exact List.mem_cons_of_mem _ hmem
        · rw [if_neg hg0]; exact hmem

/-- An invalid character at position `i` of a scanned sequence puts
`(ln, idx + i, c)` into `rawVSLine ln idx`. -/
theorem rawVSLine_of_getElem (ln : Nat) (cs : List Char) : ∀ (idx i : Nat) (c : Char),
    cs[i]? = some c → validChar c = false → (ln, idx + i, c) ∈ rawVSLine ln idx cs := by
  induction cs with
  | nil => intro idx i c h _; simp at h
  | cons c0 rest ih =>
    intro idx i c h hv
    cases i with
    | zero =>
      simp only [List.getElem?_cons_zero, Option.some.injEq] at h
      subst h
      rw [rawVSLine, if_neg (by simp [hv])]
      exact List.mem_cons_self _ _
    | succ n =>
      simp only [List.getElem?_cons_succ] at h
      have hmem := ih (idx + 1) n c h hv
      rw [show idx + (n + 1) = (idx + 1) + n by omega, rawVSLine]
      exact List.mem_append_right _ hmem

/-- An invalid character at position `i` of the cleaned text of the
non-header, non-blank line at position `k` puts `(ln + k, i, c)` into
`rawVS ln`. -/
theorem rawVS_of_getElem (lines : List String) : ∀ (ln k : Nat) (l : String) (i : Nat) (c : Char),
    lines[k]? = some l → startsHeader l = false → pyStrip l ≠ "" →
    (despace (pyStripList l.data))[i]? = some c → validChar c = false →
    ((ln + k : Nat), (i, c)) ∈ rawVS ln lines := by
  induction lines with
  | nil => intro ln k l i c h _ _ _ _; simp at h
  | cons l0 rest ih =>
    intro ln k l i c h hdr hblank hchar hv
    cases k with
    | zero =>
      simp only [List.getElem?_cons_zero, Option.some.injEq] at h
      subst h
      rw [rawVS, if_neg (by simp [hdr, hblank])]
      have := rawVSLine_of_getElem ln (despace (pyStripList l0.data)) 0 i c hchar hv
      simpa using List.mem_append_left _ this
    | succ n =>
      simp only [List.getElem?_cons_succ] at h
      have hmem := ih (ln + 1) n l i c h hdr hblank hchar hv
      rw [show ln + (n + 1) = (ln + 1) + n by omega, rawVS]
      by_cases hc : startsHeader l0 ∨ pyStrip l0 = ""
      · rw [if_pos hc]; exact hmem
      · rw [if_neg hc]; exact List.mem_append_right _ hmem

/-- C7: whenever the split lines of a FastaText contain the line `"ATCG X"`
(at any 0-based index `ln`), the full validation reports, for that line
(reported 1-based as `ln + 1`), at least one Gap issue and at least one
invalid-sequence-character issue for `X` whose reported position is 5 — the
1-based position of `X` within the space-and-tab-stripped sequence `"ATCGX"`,
not position 6 as in the original line. -/
theorem c7_gap_and_invalid_char (content : String) (ln : Nat)
    (h : (pySplitlines content)[ln]? = some "ATCG X") :
    (∃ iss ∈ check_fasta_file content, iss.lineNumber = ln + 1 ∧ iss.issue = gapMsg)
    ∧ (∃ iss ∈ check_fasta_file content, iss.lineNumber = ln + 1
        ∧ iss.issue = "Invalid character in sequence: 'X' at position 5") := by
  have hdr : startsHeader "ATCG X" = false := by decide
  have hblank : pyStrip "ATCG X" ≠ "" := by decide
  have hgc : (' ' ∈ "ATCG X".data ∨ '\t' ∈ "ATCG X".data) := by decide
  constructor
  · have hmem : ln ∈ rawGap 0 (pySplitlines content) := by
      have := rawGap_of_getElem (pySplitlines content) 0 ln _ h hdr hblank hgc
      simpa using this
    have hpair : (ln + 1, gapMsg) ∈ gapPairs content :=
      List.mem_map_of_mem _ hmem
    obtain ⟨n, hn⟩ := mkIssues_mem (gapPairs content)
      ((naPairs content).length + (vsPairs content).length) (ln + 1) gapMsg hpair
    refine ⟨⟨n, ln + 1, gapMsg⟩, ?_, rfl, rfl⟩
    rw [check_fasta_file_eq]
    exact List.mem_append_left _ (List.mem_append_right _ hn)
  · have hchar : (despace (pyStripList "ATCG X".data))[4]? = some 'X' := by decide
    have hv : validChar 'X' = false := by decide
    have hmem : ((ln : Nat), ((4 : Nat), 'X')) ∈ rawVS 0 (pySplitlines content) := by
      have := rawVS_of_getElem (pySplitlines content) 0 ln _ 4 'X' h hdr hblank hchar hv
      simpa using this
    have hpair : (ln + 1, invalidSeqMsg 'X' 4) ∈ vsPairs content :=
      List.mem_map_of_mem _ hmem
    obtain ⟨n, hn⟩ := mkIssues_mem (vsPairs content) (naPairs content).length
      (ln + 1) (invalidSeqMsg 'X' 4) hpair
    have hmsg : invalidSeqMsg 'X' 4 = "Invalid character in sequence: 'X' at position 5" := by
      decide
    refine ⟨⟨n, ln + 1, invalidSeqMsg 'X' 4⟩, ?_, rfl, hmsg⟩
    rw [check_fasta_file_eq]
    exact List.mem_append_left _
      (List.mem_append_left _ (List.mem_append_right _ hn))

/-- Witness for C7: the FastaText `">h\nATCG X"` has line `"ATCG X"` at
0-based index 1 and gets both issues for reported line 2. -/
theorem c7_witness :
    (pySplitlines ">h\nATCG X")[1]? = some "ATCG X"
    ∧ ((∃ iss ∈ check_fasta_file ">h\nATCG X", iss.lineNumber = 2 ∧ iss.issue = gapMsg)
      ∧ (∃ iss ∈ check_fasta_file ">h\nATCG X", iss.lineNumber = 2
          ∧ iss.issue = "Invalid character in sequence: 'X' at position 5")) :=
  ⟨by decide, c7_gap_and_invalid_char ">h\nATCG X" 1 (by decide)⟩

/-! ### Screener lemmas -/

/-- The innermost screener loop: its flag records whether any character
exceeds 255 and its locator list is the declarative one. -/
theorem scanChars_eq (i j : Nat) (cell : String) (cs : List Char) :
    ∀ (k : Nat) (st : Bool × List Locator),
    scanChars i j cell k cs st
      = (st.1 || cs.any (fun c => decide (255 < c.toNat)),
         st.2 ++ rawLocsCell i j cell k cs) := by
  induction cs with
  | nil => intro k st; simp [scanChars, rawLocsCell]
  | cons c rest ih =>
    intro k st
    by_cases hc : 255 < c.toNat
    · rw [show scanChars i j cell k (c :: rest) st
            = scanChars i j cell (k + 1) rest
                (true, st.2 ++ [⟨i + 1, j + 1, k + 1, c.toNat, c, cell⟩]) by
          simp [scanChars, hc],
        ih]
      simp [rawLocsCell, hc, List.append_assoc]
    · rw [show scanChars i j cell k (c :: rest) st
            = scanChars i j cell (k + 1) rest st by simp [scanChars, hc],
        ih]
      simp [rawLocsCell, hc]

/-- The row screener loop, in terms of the declarative locator list. -/
theorem scanRow_eq (i : Nat) (cells : List String) : ∀ (j : Nat) (st : Bool × List Locator),
    scanRow i j cells st
      = (st.1 || cells.any (fun cell => cell.data.any (fun c => decide (255 < c.toNat))),
         st.2 ++ rawLocsRow i j cells) := by
  induction cells with
  | nil => intro j st; simp [scanRow, rawLocsRow]
  | cons cell rest ih =>
    intro j st
    rw [show scanRow i j (cell :: rest) st
          = scanRow i (j + 1) rest (scanChars i j cell 0 cell.data st) from rfl,
      ih, scanChars_eq]
    simp [rawLocsRow, List.append_assoc, Bool.or_assoc]

/-- The table screener loop, in terms of the declarative locator list. -/
theorem scanTable_eq (rows : List (List String)) : ∀ (i : Nat) (st : Bool × List Locator),
    scanTable i rows st
      = (st.1 || rows.any (fun row =>
            row.any (fun cell => cell.data.any (fun c => decide (255 < c.toNat)))),
         st.2 ++ rawLocsTable i rows) := by
  induction rows with
  | nil => intro i st; simp [scanTable, rawLocsTable]
  | cons row rest ih =>
    intro i st
    rw [show scanTable i (row :: rest) st
          = scanTable (i + 1) rest (scanRow i 0 row st) from rfl,
      ih, scanRow_eq]
    simp [rawLocsTable, List.append_assoc, Bool.or_assoc]

/-- The screener of `main`: flag = "some character above 255 exists",
locators = every occurrence. -/
theorem screenTable_eq (table : List (List String)) :
    screenTable table
      = (table.any (fun row =>
            row.any (fun cell => cell.data.any (fun c => decide (255 < c.toNat)))),
         allLocators table) := by
  rw [screenTable, scanTable_eq]
  simp [allLocators]

/-- C3: whenever some cell of the table contains a character with code point
above 255, the cell screener reports `illegal_chars_seen = true`, its locator
list is exactly `allLocators` — one locator per offending occurrence over all
cells, with no early stop — and the pipeline never runs the FASTA serializer
(`pipelineFasta` is `none`). -/
theorem c3_illegal_cells_block_serialization (table : List (List String))
    (h : ∃ row ∈ table, ∃ cell ∈ row, ∃ c ∈ cell.data, 255 < c.toNat) :
    (screenTable table).1 = true
    ∧ (screenTable table).2 = allLocators table
    ∧ pipelineFasta table = none := by
  have he := screenTable_eq table
  have hflag : (screenTable table).1 = true := by
    rw [he]
    simp only [List.any_eq_true, decide_eq_true_eq]
    exact h
  refine ⟨hflag, by rw [he], ?_⟩
  rw [pipelineFasta, if_pos hflag]

/-- Witness for C3: a cell containing character code 256. -/
theorem c3_witness :
    (∃ row ∈ [[String.mk ['A', Char.ofNat 256]]], ∃ cell ∈ row, ∃ c ∈ cell.data, 255 < c.toNat)
    ∧ ((screenTable [[String.mk ['A', Char.ofNat 256]]]).1 = true
      ∧ (screenTable [[String.mk ['A', Char.ofNat 256]]]).2
          = allLocators [[String.mk ['A', Char.ofNat 256]]]
      ∧ pipelineFasta [[String.mk ['A', Char.ofNat 256]]] = none) :=
  ⟨by decide, c3_illegal_cells_block_serialization _ (by decide)⟩

/-- C10: splitting the empty string produces no lines, so the full four-check
validation of the empty string returns an empty issue list; and zero issues
alone never implies acceptance — whenever the save gate `okay_to_save`
accepts, the serializer emitted at least one line (and validation of the
serialized text found no issues). -/
theorem c10_empty_validation_and_save_gate :
    pySplitlines "" = []
    ∧ check_fasta_file "" = []
    ∧ ∀ (table : List (List String)), okay_to_save table = true →
        fasta_contents table ≠ [] ∧ check_fasta_file (fasta_str table) = [] := by
  refine ⟨rfl, rfl, ?_⟩
  intro table h
  rw [okay_to_save] at h
  split at h
  · exact absurd h (by simp)
  · rename_i fc heq
    split at h
    · exact absurd h (by simp)
    · rename_i hfc
      have hfc_eq : fc = fasta_contents table := by
        rw [pipelineFasta] at heq
        split at heq
        · exact absurd heq (by simp)
        · split at heq
          · exact absurd heq (by simp)
          · injection heq with heq2
            exact heq2.symm
      constructor
      · rw [← hfc_eq]; exact hfc
      · rw [fasta_str, ← hfc_eq]
        simpa using h

/-- Witness for C10: a table the gate accepts has non-empty serialization. -/
theorem c10_witness :
    okay_to_save [["S", "ATCG"]] = true
    ∧ fasta_contents [["S", "ATCG"]] ≠ []
    ∧ check_fasta_file (fasta_str [["S", "ATCG"]]) = [] := by
  refine ⟨by decide, ?_, ?_⟩
  · exact (c10_empty_validation_and_save_gate.2.2 [["S", "ATCG"]] (by decide)).1
  · exact (c10_empty_validation_and_save_gate.2.2 [["S", "ATCG"]] (by decide)).2
